import Mathlib

set_option maxHeartbeats 1000000

/-!
Verification of the losrs card storage engine (src/storage.rs, src/types.rs,
src/output.rs) against its natural-language specification.

Raw file text is modeled as a list of characters (`Str`).  A file's line
array, as produced by `Page::get_lines` via Rust's `str::lines()`, is modeled
by `splitLines`: the text is split after every newline, and each
newline-terminated segment is stripped of its terminator and of a single
carriage return directly before it; a final unterminated segment is kept
as is.
-/

abbrev Str := List Char

/-- Split raw text into segments, splitting after every newline character and
keeping the terminator with its segment (Rust `split_inclusive`). -/
def splitRaw : Str → List Str
  | [] => []
  | c :: cs =>
    match splitRaw cs with
    | [] => [[c]]
    | seg :: rest => if c = '\n' then [c] :: seg :: rest else (c :: seg) :: rest

/-- Strip a trailing newline from a segment and, when a newline was stripped,
also a single carriage return directly before it (Rust `str::lines`
terminator handling). -/
def chompLine (seg : Str) : Str :=
  if seg.getLast? = some '\n' then
    let s := seg.dropLast
    if s.getLast? = some '\r' then s.dropLast else s
  else seg

/-- Model of `Page::get_lines` (src/storage.rs:292-294): Rust
`str::lines().collect()`. -/
def splitLines (s : Str) : List Str := (splitRaw s).map chompLine

/-- Model of `Vec::join("\n")` on a list of lines. -/
def joinNL : List Str → Str
  | [] => []
  | [l] => l
  | l :: ls => l ++ '\n' :: joinNL ls

/-- Lines each followed by a newline terminator: the output shape of a
sequence of `writeln!` calls, one per line. -/
def terminatedLines : List Str → Str
  | [] => []
  | l :: ls => l ++ '\n' :: terminatedLines ls

/-- The bytes `Page::rewrite_card` emits for one region of lines: nothing when
the region is empty, otherwise the lines joined with newlines plus one
trailing newline (src/storage.rs:369-372 and 377-380). -/
def lineChunk (ls : List Str) : Str :=
  if ls.isEmpty then [] else joinNL ls ++ ['\n']

/-- Model of `Page::rewrite_card` (src/storage.rs:359-383).  The file is
reconstructed as: the lines strictly before the prompt range's start, the
card block emitted by `format_card_logseq` (modelled from the spec, §4.6
step 5, as a sequence of newline-terminated lines, since `format_card_logseq`
itself is not among the provided sources; its per-line output shape is that
of `format_card_storage` in src/output.rs:396-412), and the lines strictly
after the response range's end. -/
def Page.rewrite_card (file_raw_lines : List Str) (promptStart respEnd : Nat)
    (cardBlock : List Str) : Str :=
  lineChunk (file_raw_lines.take promptStart)
    ++ terminatedLines cardBlock
    ++ lineChunk (file_raw_lines.drop (respEnd + 1))

/-- A well-behaved line: contains no newline and does not end in a carriage
return.  Every line of an LF-terminated file satisfies this. -/
def goodLine (l : Str) : Prop := '\n' ∉ l ∧ l.getLast? ≠ some '\r'

instance (l : Str) : Decidable (goodLine l) := by
  unfold goodLine; infer_instance

theorem splitRaw_newline (rest : Str) :
    splitRaw ('\n' :: rest) = ['\n'] :: splitRaw rest := by
  rcases h : splitRaw rest with _ | ⟨seg, r⟩ <;> simp [splitRaw, h]

theorem splitRaw_term (l : Str) (h : '\n' ∉ l) (rest : Str) :
    splitRaw (l ++ '\n' :: rest) = (l ++ ['\n']) :: splitRaw rest := by
  induction l with
  | nil => simpa using splitRaw_newline rest
  | cons c l ih =>
    rw [List.mem_cons, not_or] at h
    have hc : c ≠ '\n' := fun hc => h.1 hc.symm
    rw [List.cons_append, splitRaw, ih h.2]
    simp [hc]

theorem chompLine_term (l : Str) (h : l.getLast? ≠ some '\r') :
    chompLine (l ++ ['\n']) = l := by
  unfold chompLine
  rw [List.getLast?_concat, List.dropLast_concat]
  simp [h]

theorem splitLines_term_append (ls : List Str) (rest : Str)
    (h : ∀ l ∈ ls, goodLine l) :
    splitLines (terminatedLines ls ++ rest) = ls ++ splitLines rest := by
  induction ls with
  | nil => simp [terminatedLines]
  | cons l ls ih =>
    have hl := h l (by simp)
    have hr : ∀ x ∈ ls, goodLine x := fun x hx => h x (by simp [hx])
    have : terminatedLines (l :: ls) ++ rest
        = l ++ '\n' :: (terminatedLines ls ++ rest) := by
      simp [terminatedLines]
    rw [this, splitLines, splitRaw_term l hl.1, List.map_cons,
      chompLine_term l hl.2]
    rw [splitLines] at ih
    rw [ih hr]
    rfl

theorem lineChunk_eq_terminated (ls : List Str) :
    lineChunk ls = terminatedLines ls := by
  induction ls with
  | nil => rfl
  | cons l ls ih =>
    rw [lineChunk, if_neg (by simp)]
    cases ls with
    | nil => rfl
    | cons l2 ls2 =>
      have hj : joinNL (l :: l2 :: ls2) = l ++ '\n' :: joinNL (l2 :: ls2) := rfl
      rw [hj, terminatedLines, ← ih, lineChunk,
        if_neg (by intro h; simp [List.isEmpty_cons] at h)]
      simp

theorem splitLines_terminated (ls : List Str) (h : ∀ l ∈ ls, goodLine l) :
    splitLines (terminatedLines ls) = ls := by
  have := splitLines_term_append ls [] h
  simpa [splitLines, splitRaw] using this

theorem terminatedLines_append (a b : List Str) :
    terminatedLines (a ++ b) = terminatedLines a ++ terminatedLines b := by
  induction a with
  | nil => rfl
  | cons l a ih => simp [terminatedLines, ih]

/-- C1 (amended): `Page::rewrite_card` emits exactly the unchanged lines
strictly before the prompt range, each terminated by a plain newline, then
the card block, then the unchanged lines strictly after the response range,
each terminated by a plain newline.  Consequently, for a file whose lines
contain no newline and do not end in a carriage return (every LF- or
CRLF-terminated file), the content of every line strictly before the prompt
range and strictly after the response range is preserved — reading the
rewritten file back yields the unchanged prefix, the card block, and the
unchanged suffix — and for a file whose bytes are its lines joined with LF
terminators (`terminatedLines file_raw_lines`, a pure-LF file), the byte
regions strictly before the prompt range and strictly after the response
range are byte-identical between the original and the rewrite: only the
byte range spanning the card's prompt+response changes. -/
theorem rewrite_card_locality
    (file_raw_lines cardBlock : List Str) (promptStart respEnd : Nat)
    (hf : ∀ l ∈ file_raw_lines, goodLine l)
    (hb : ∀ l ∈ cardBlock, goodLine l)
    (hps : promptStart ≤ file_raw_lines.length) :
    splitLines (Page.rewrite_card file_raw_lines promptStart respEnd cardBlock)
      = file_raw_lines.take promptStart ++ cardBlock
          ++ file_raw_lines.drop (respEnd + 1)
    ∧ (splitLines
        (Page.rewrite_card file_raw_lines promptStart respEnd
          cardBlock)).take promptStart
      = file_raw_lines.take promptStart
    ∧ (splitLines
        (Page.rewrite_card file_raw_lines promptStart respEnd
          cardBlock)).drop (promptStart + cardBlock.length)
      = file_raw_lines.drop (respEnd + 1)
    ∧ Page.rewrite_card file_raw_lines promptStart respEnd cardBlock
      = terminatedLines (file_raw_lines.take promptStart)
        ++ (terminatedLines cardBlock
          ++ terminatedLines (file_raw_lines.drop (respEnd + 1)))
    ∧ (promptStart ≤ respEnd + 1 →
        terminatedLines file_raw_lines
          = terminatedLines (file_raw_lines.take promptStart)
            ++ (terminatedLines
                ((file_raw_lines.drop promptStart).take
                  (respEnd + 1 - promptStart))
              ++ terminatedLines (file_raw_lines.drop (respEnd + 1)))) := by
  have hpre : ∀ l ∈ file_raw_lines.take promptStart, goodLine l :=
    fun l hl => hf l (List.mem_of_mem_take hl)
  have hpost : ∀ l ∈ file_raw_lines.drop (respEnd + 1), goodLine l :=
    fun l hl => hf l (List.mem_of_mem_drop hl)
  have hmain :
      splitLines (Page.rewrite_card file_raw_lines promptStart respEnd cardBlock)
        = file_raw_lines.take promptStart ++ cardBlock
            ++ file_raw_lines.drop (respEnd + 1) := by
    rw [Page.rewrite_card, lineChunk_eq_terminated, lineChunk_eq_terminated,
      List.append_assoc, splitLines_term_append _ _ hpre,
      splitLines_term_append _ _ hb, splitLines_terminated _ hpost,
      List.append_assoc]
  refine ⟨hmain, ?_, ?_, ?_, ?_⟩
  · rw [hmain, List.append_assoc]
    exact List.take_left' (by simp [hps])
  · rw [hmain]
    exact List.drop_left' (by simp [hps])
  · rw [Page.rewrite_card, lineChunk_eq_terminated, lineChunk_eq_terminated,
      List.append_assoc]
  · intro hpr
    have h3 : (file_raw_lines.drop promptStart).drop
          (respEnd + 1 - promptStart)
        = file_raw_lines.drop (respEnd + 1) := by
      rw [List.drop_drop]
      congr 1
      omega
    conv_lhs =>
      rw [← List.take_append_drop promptStart file_raw_lines,
        ← List.take_append_drop (respEnd + 1 - promptStart)
          (file_raw_lines.drop promptStart),
        h3]
    rw [terminatedLines_append, terminatedLines_append]

/-- Witness for `rewrite_card_locality` at a concrete three-line file with
the card on lines 1-1 and a one-line replacement block. -/
theorem rewrite_card_locality_witness :
    (∀ l ∈ [['a'], ['b'], ['c']], goodLine l)
    ∧ (∀ l ∈ [['x']], goodLine l)
    ∧ (1 : Nat) ≤ [['a'], ['b'], ['c']].length
    ∧ (1 : Nat) ≤ 1 + 1
    ∧ splitLines (Page.rewrite_card [['a'], ['b'], ['c']] 1 1 [['x']])
        = [['a'], ['b'], ['c']].take 1 ++ [['x']]
            ++ [['a'], ['b'], ['c']].drop 2
    ∧ (splitLines (Page.rewrite_card [['a'], ['b'], ['c']] 1 1 [['x']])).take 1
        = [['a'], ['b'], ['c']].take 1
    ∧ (splitLines (Page.rewrite_card [['a'], ['b'], ['c']] 1 1 [['x']])).drop
          (1 + [['x']].length)
        = [['a'], ['b'], ['c']].drop 2
    ∧ Page.rewrite_card [['a'], ['b'], ['c']] 1 1 [['x']]
        = terminatedLines ([['a'], ['b'], ['c']].take 1)
          ++ (terminatedLines [['x']]
            ++ terminatedLines ([['a'], ['b'], ['c']].drop 2))
    ∧ terminatedLines [['a'], ['b'], ['c']]
        = terminatedLines ([['a'], ['b'], ['c']].take 1)
          ++ (terminatedLines (([['a'], ['b'], ['c']].drop 1).take (1 + 1 - 1))
            ++ terminatedLines ([['a'], ['b'], ['c']].drop 2)) := by
  have W := rewrite_card_locality [['a'], ['b'], ['c']] [['x']] 1 1
    (by decide) (by decide) (by decide)
  exact ⟨by decide, by decide, by decide, by decide,
    W.1, W.2.1, W.2.2.1, W.2.2.2.1, W.2.2.2.2 (by decide)⟩

/-- C1 counterexample: the claim as stated — only the byte range spanning
the card's prompt+response changes — fails on a CRLF-terminated file, on
which the rewrite genuinely succeeds: a CRLF sequence is a single line
ending both for the markdown parser's positions (CommonMark) and for
`str::lines()`, so the parser's card ranges agree with the line array
(prompt range 1-1, response range 2-2 here) and extraction, lookup and
rewrite all go through.  In `"ab\r\n- Q #card\n  - A\n"` the byte range
strictly before the prompt range is `"ab\r\n"`, but `Page::rewrite_card`
writes the untouched pre-context line joined with a plain newline, so the
rewritten file begins `"ab\n"` — whatever card block `format_card_logseq`
emits (instantiated here with the card's own two lines): the bytes strictly
before the card's byte range are not preserved, though the line content
`"ab"` is. -/
theorem rewrite_card_locality_cex :
    ("ab\r\n- Q #card\n  - A\n".toList).take 4 = "ab\r\n".toList
    ∧ (Page.rewrite_card (splitLines "ab\r\n- Q #card\n  - A\n".toList) 1 2
        ((splitLines "ab\r\n- Q #card\n  - A\n".toList).drop 1)).take 4
      ≠ "ab\r\n".toList := by
  constructor
  · decide
  · decide

/-! ## Scheduling metadata types (src/types.rs, src/output.rs)

Machine floats (`f64`) are modeled as exact rationals, machine timestamps
(`DateTime`) as integer nanoseconds since the Unix epoch, `u8`/`i32`/`i64`
as `Nat`/`Int` with explicit wrapping where a Rust cast truncates. -/

/-- Model of `rs_fsrs::State` (external scheduling library). -/
inductive FSRSState
  | New
  | Learning
  | Review
  | Relearning
deriving DecidableEq, Repr

/-- Model of `rs_fsrs::Card` (the `FSRSMeta` alias in src/types.rs:9): the
scheduling-state snapshot.  Timestamps are nanoseconds since the epoch. -/
structure FSRSMeta where
  due : ℤ
  stability : ℚ
  difficulty : ℚ
  elapsed_days : ℤ
  scheduled_days : ℤ
  reps : ℤ
  lapses : ℤ
  state : FSRSState
  last_review : ℤ
deriving DecidableEq, Repr

/-- Model of `rs_fsrs::Card::default()` (external collaborator): the
library-default "new card" state.  The crate fills `due`/`last_review` with
the current wall-clock instant; real time is outside the embedding, so a
fixed reference instant 0 is used. -/
def FSRSMeta.default : FSRSMeta :=
  { due := 0, stability := 0, difficulty := 0, elapsed_days := 0,
    scheduled_days := 0, reps := 0, lapses := 0, state := .New,
    last_review := 0 }

/-- Model of `LogseqSRSMeta` (src/types.rs:57-66): the legacy line-oriented
fields. -/
structure LogseqSRSMeta where
  last_interval : ℚ
  repeats : ℕ
  ease_factor : ℚ
  next_schedule : ℤ
  last_reviewed : ℤ
  last_score : ℕ
deriving DecidableEq, Repr

/-- Model of `LogseqSRSMeta::default()` (src/types.rs:68-86). -/
def LogseqSRSMeta.default : LogseqSRSMeta :=
  { last_interval := 0, repeats := 0, ease_factor := 5/2,
    next_schedule := 0, last_reviewed := 0, last_score := 5 }

/-- Rust `as i64` on an `f64`: truncation toward zero (the model ignores
saturation at the `i64` bounds, which the inputs here never reach). -/
def ratTruncToInt (q : ℚ) : ℤ := q.num / (q.den : ℤ)

/-- Rust `as u8` on an `i32`: keep the low 8 bits. -/
def i32AsU8 (n : ℤ) : ℕ := (n.emod 256).toNat

/-- Model of `impl From<&LogseqSRSMeta> for FSRSMeta` (src/types.rs:88-108):
synthesize a scheduling state from legacy fields, with the sentinel rule that
a non-positive interval denotes a brand-new card. -/
def FSRSMeta.fromLogseq (m : LogseqSRSMeta) : FSRSMeta :=
  if m.last_interval ≤ 0 then FSRSMeta.default
  else
    { due := m.next_schedule, stability := m.last_interval, difficulty := 5,
      elapsed_days := ratTruncToInt m.last_interval,
      scheduled_days := ratTruncToInt m.last_interval,
      reps := (m.repeats : ℤ), lapses := 0, state := .Review,
      last_review := m.last_reviewed }

/-- Model of `impl From<&FSRSMeta> for LogseqSRSMeta` (src/types.rs:111-122):
derive display legacy fields from a scheduling state. -/
def LogseqSRSMeta.fromFSRS (f : FSRSMeta) : LogseqSRSMeta :=
  { last_interval := (f.scheduled_days : ℚ), repeats := i32AsU8 f.reps,
    ease_factor := 5/2, next_schedule := f.due, last_reviewed := f.last_review,
    last_score := 5 }

/-- Model of `SRSMeta` (src/types.rs:126-130). -/
structure SRSMeta where
  logseq_srs_meta : LogseqSRSMeta
  fsrs_meta : FSRSMeta
deriving DecidableEq, Repr

/-- One parsed `key:: value` metadata line of a prompt, at the granularity
`SRSMeta::from_prompt_lines` consumes: a recognized key carrying its parsed
value, a recognized key whose value fails to parse, or any other line
(unrecognized key, or no `":: "` separator), which the parser skips.  The
primitive value codecs (float/integer display, RFC3339, serde_json) are
external collaborators that round-trip the emitted values exactly, so values
are carried in parsed form. -/
inductive MetaLine
  | lastInterval (v : ℚ)
  | repeats (v : ℕ)
  | easeFactor (v : ℚ)
  | nextSchedule (v : ℤ)
  | lastReviewed (v : ℤ)
  | lastScore (v : ℕ)
  | fsrsMetadata (v : FSRSMeta)
  | invalidValue (key : String)
  | other
deriving DecidableEq, Repr

/-- The `card-...` key a metadata line carries, if any. -/
def MetaLine.key : MetaLine → Option String
  | .lastInterval _ => some "card-last-interval"
  | .repeats _ => some "card-repeats"
  | .easeFactor _ => some "card-ease-factor"
  | .nextSchedule _ => some "card-next-schedule"
  | .lastReviewed _ => some "card-last-reviewed"
  | .lastScore _ => some "card-last-score"
  | .fsrsMetadata _ => some "card-fsrs-metadata"
  | .invalidValue k => some k
  | .other => none

/-- Error raised by `SRSMeta::from_prompt_lines` when a recognized key's
value fails to parse (the `with_context` wrapping in src/storage.rs:216). -/
inductive CodecError
  | keyFailed (key : String)
deriving DecidableEq, Repr

/-- One loop iteration of `SRSMeta::from_prompt_lines`
(src/storage.rs:185-217): update the legacy accumulator or record the JSON
snapshot; unrecognized lines are skipped; a value parse failure aborts. -/
def applyMetaLine (acc : LogseqSRSMeta × Option FSRSMeta) (l : MetaLine) :
    Except CodecError (LogseqSRSMeta × Option FSRSMeta) :=
  match l with
  | .lastInterval v => .ok ({ acc.1 with last_interval := v }, acc.2)
  | .repeats v => .ok ({ acc.1 with repeats := v }, acc.2)
  | .easeFactor v => .ok ({ acc.1 with ease_factor := v }, acc.2)
  | .nextSchedule v => .ok ({ acc.1 with next_schedule := v }, acc.2)
  | .lastReviewed v => .ok ({ acc.1 with last_reviewed := v }, acc.2)
  | .lastScore v => .ok ({ acc.1 with last_score := v }, acc.2)
  | .fsrsMetadata v => .ok (acc.1, some v)
  | .invalidValue k => .error (.keyFailed k)
  | .other => .ok acc

/-- The loop of `SRSMeta::from_prompt_lines` over all prompt lines. -/
def SRSMeta.from_prompt_lines_go (acc : LogseqSRSMeta × Option FSRSMeta) :
    List MetaLine → Except CodecError (LogseqSRSMeta × Option FSRSMeta)
  | [] => .ok acc
  | l :: ls => do SRSMeta.from_prompt_lines_go (← applyMetaLine acc l) ls

/-- Model of `SRSMeta::from_prompt_lines` (src/storage.rs:181-229): parse the
prompt's metadata lines; if a JSON snapshot was seen it is authoritative and
the legacy fields are derived from it, otherwise the snapshot is synthesized
from the accumulated legacy fields. -/
def SRSMeta.from_prompt_lines (lines : List MetaLine) :
    Except CodecError SRSMeta := do
  let acc ← SRSMeta.from_prompt_lines_go (LogseqSRSMeta.default, none) lines
  match acc.2 with
  | some f => .ok { logseq_srs_meta := LogseqSRSMeta.fromFSRS f, fsrs_meta := f }
  | none =>
      .ok { logseq_srs_meta := acc.1, fsrs_meta := FSRSMeta.fromLogseq acc.1 }

/-- Model of `truncate_to_millis` (src/output.rs:349-351) on a nanosecond
timestamp: `timestamp_millis` floors toward negative infinity. -/
def truncate_to_millis (t : ℤ) : ℤ := t.fdiv 1000000 * 1000000

/-- Rust `f64::round`: round half away from zero. -/
def roundHalfAwayFromZero (q : ℚ) : ℤ :=
  if 0 ≤ q then ⌊q + 1/2⌋ else -⌊-q + 1/2⌋

/-- `(x * 1000.0).round() / 1000.0`: round to three decimal places
(src/output.rs:357-358). -/
def roundTo3 (q : ℚ) : ℚ := (roundHalfAwayFromZero (q * 1000) : ℚ) / 1000

/-- Model of `impl From<&FSRSMeta> for FSRSMetaForStorage`
(src/output.rs:353-367): the snapshot as serialized, with timestamps
truncated to millisecond precision and stability/difficulty rounded to three
decimal places. -/
def FSRSMetaForStorage.of (f : FSRSMeta) : FSRSMeta :=
  { due := truncate_to_millis f.due, stability := roundTo3 f.stability,
    difficulty := roundTo3 f.difficulty, elapsed_days := f.elapsed_days,
    scheduled_days := f.scheduled_days, reps := f.reps, lapses := f.lapses,
    state := f.state, last_review := truncate_to_millis f.last_review }

/-- Model of `format_card_storage_srs_meta` (src/output.rs:369-394): the
metadata lines written back for a card, in the serializer's fixed order.  The
legacy timestamps are printed with `SecondsFormat::Millis` (truncation to
milliseconds); the snapshot line carries the `FSRSMetaForStorage`
rounding. -/
def format_card_storage_srs_meta (m : SRSMeta) : List MetaLine :=
  [.lastInterval m.logseq_srs_meta.last_interval,
   .repeats m.logseq_srs_meta.repeats,
   .easeFactor m.logseq_srs_meta.ease_factor,
   .nextSchedule (truncate_to_millis m.logseq_srs_meta.next_schedule),
   .lastReviewed (truncate_to_millis m.logseq_srs_meta.last_reviewed),
   .lastScore m.logseq_srs_meta.last_score,
   .fsrsMetadata (FSRSMetaForStorage.of m.fsrs_meta)]

/-- The canonical serialization order of the metadata keys. -/
def canonicalMetaKeys : List (Option String) :=
  [some "card-last-interval", some "card-repeats", some "card-ease-factor",
   some "card-next-schedule", some "card-last-reviewed",
   some "card-last-score", some "card-fsrs-metadata"]

/-- The pure legacy-field effect of one metadata line. -/
def legacyApply (acc : LogseqSRSMeta) (l : MetaLine) : LogseqSRSMeta :=
  match l with
  | .lastInterval v => { acc with last_interval := v }
  | .repeats v => { acc with repeats := v }
  | .easeFactor v => { acc with ease_factor := v }
  | .nextSchedule v => { acc with next_schedule := v }
  | .lastReviewed v => { acc with last_reviewed := v }
  | .lastScore v => { acc with last_score := v }
  | _ => acc

/-- Legacy fields accumulated over a list of metadata lines. -/
def legacyFold (acc : LogseqSRSMeta) (ls : List MetaLine) : LogseqSRSMeta :=
  ls.foldl legacyApply acc

/-- The snapshot effect of one metadata line. -/
def fsrsStep (f? : Option FSRSMeta) (l : MetaLine) : Option FSRSMeta :=
  match l with
  | .fsrsMetadata v => some v
  | _ => f?

/-- The last `card-fsrs-metadata` value over a list of metadata lines. -/
def lastFsrsFrom (f? : Option FSRSMeta) (ls : List MetaLine) :
    Option FSRSMeta :=
  ls.foldl fsrsStep f?

/-- No metadata line has an unparseable value. -/
def allValid (ls : List MetaLine) : Bool :=
  ls.all fun l => match l with | .invalidValue _ => false | _ => true

theorem from_prompt_lines_go_eq (ls : List MetaLine) :
    ∀ acc : LogseqSRSMeta × Option FSRSMeta, allValid ls = true →
      SRSMeta.from_prompt_lines_go acc ls
        = .ok (legacyFold acc.1 ls, lastFsrsFrom acc.2 ls) := by
  induction ls with
  | nil => intro acc _; rfl
  | cons l ls ih =>
    intro acc h
    rw [allValid, List.all_cons, Bool.and_eq_true] at h
    cases l with
    | invalidValue k => simp at h
    | lastInterval v => exact ih ({ acc.1 with last_interval := v }, acc.2) h.2
    | repeats v => exact ih ({ acc.1 with repeats := v }, acc.2) h.2
    | easeFactor v => exact ih ({ acc.1 with ease_factor := v }, acc.2) h.2
    | nextSchedule v => exact ih ({ acc.1 with next_schedule := v }, acc.2) h.2
    | lastReviewed v => exact ih ({ acc.1 with last_reviewed := v }, acc.2) h.2
    | lastScore v => exact ih ({ acc.1 with last_score := v }, acc.2) h.2
    | fsrsMetadata v => exact ih (acc.1, some v) h.2
    | other => exact ih acc h.2

/-- C8: when parsing a prompt's metadata lines (all values parseable), a
present `card-fsrs-metadata` snapshot is authoritative — the resulting
scheduling state is that snapshot and the legacy fields are derived from it;
when absent, the scheduling state is synthesized from the accumulated legacy
fields; and whenever the legacy interval is at most 0 the synthesized state
is exactly the library-default new-card state. -/
theorem from_prompt_lines_snapshot_rule (ls : List MetaLine)
    (h : allValid ls = true) :
    (∀ f, lastFsrsFrom none ls = some f →
      SRSMeta.from_prompt_lines ls
        = .ok { logseq_srs_meta := LogseqSRSMeta.fromFSRS f, fsrs_meta := f })
    ∧ (lastFsrsFrom none ls = none →
      SRSMeta.from_prompt_lines ls
        = .ok { logseq_srs_meta := legacyFold LogseqSRSMeta.default ls,
                fsrs_meta :=
                  FSRSMeta.fromLogseq (legacyFold LogseqSRSMeta.default ls) })
    ∧ (∀ L : LogseqSRSMeta, L.last_interval ≤ 0 →
        FSRSMeta.fromLogseq L = FSRSMeta.default) := by
  have hgo := from_prompt_lines_go_eq ls (LogseqSRSMeta.default, none) h
  refine ⟨?_, ?_, ?_⟩
  · intro f hf
    rw [SRSMeta.from_prompt_lines, hgo, hf]
    rfl
  · intro hf
    rw [SRSMeta.from_prompt_lines, hgo, hf]
    rfl
  · intro L hL
    rw [FSRSMeta.fromLogseq, if_pos hL]

/-- Witness for `from_prompt_lines_snapshot_rule`: a prompt with a single
`card-repeats:: 6` line and no snapshot synthesizes its state from the legacy
fields. -/
theorem from_prompt_lines_snapshot_rule_witness :
    allValid [MetaLine.repeats 6] = true
    ∧ SRSMeta.from_prompt_lines [MetaLine.repeats 6]
        = .ok { logseq_srs_meta :=
                  legacyFold LogseqSRSMeta.default [MetaLine.repeats 6],
                fsrs_meta := FSRSMeta.fromLogseq
                  (legacyFold LogseqSRSMeta.default [MetaLine.repeats 6]) } :=
  ⟨by decide,
    (from_prompt_lines_snapshot_rule [MetaLine.repeats 6] (by decide)).2.1 rfl⟩

theorem halfFloor : ⌊(1/2 : ℚ)⌋ = 0 := by
  rw [Int.floor_eq_zero_iff]
  constructor <;> norm_num

theorem roundHalfAway_intCast (k : ℤ) : roundHalfAwayFromZero (k : ℚ) = k := by
  rw [roundHalfAwayFromZero]
  by_cases hk : 0 ≤ (k : ℚ)
  · rw [if_pos hk, Int.floor_int_add, halfFloor]
    omega
  · rw [if_neg hk]
    have : -(k : ℚ) = ((-k : ℤ) : ℚ) := by push_cast; ring
    rw [this, Int.floor_int_add, halfFloor]
    omega

theorem roundTo3_idem (q : ℚ) : roundTo3 (roundTo3 q) = roundTo3 q := by
  show ((roundHalfAwayFromZero (roundTo3 q * 1000) : ℤ) : ℚ) / 1000 = roundTo3 q
  rw [roundTo3, div_mul_cancel₀ _ (by norm_num : (1000 : ℚ) ≠ 0),
    roundHalfAway_intCast]

theorem truncate_to_millis_idem (t : ℤ) :
    truncate_to_millis (truncate_to_millis t) = truncate_to_millis t := by
  rw [truncate_to_millis, truncate_to_millis,
    Int.mul_fdiv_cancel _ (by norm_num)]

theorem fsrsMetaForStorage_idem (f : FSRSMeta) :
    FSRSMetaForStorage.of (FSRSMetaForStorage.of f)
      = FSRSMetaForStorage.of f := by
  rw [FSRSMetaForStorage.of, FSRSMetaForStorage.of]
  simp [truncate_to_millis_idem, roundTo3_idem]

/-- C2 (amended): writing a card's metadata back and re-parsing the emitted
lines yields the serializer-canonical scheduling state — the original
snapshot with timestamps truncated to milliseconds and stability/difficulty
rounded to three decimals — with legacy fields derived from it; the keys are
emitted in one fixed canonical order regardless of the parsed input's order;
canonicalization is idempotent, so the round-trip yields an equal
scheduling state exactly when the state is already canonical (in particular
from the first write-back on). -/
theorem format_card_storage_srs_meta_roundtrip (m : SRSMeta) :
    SRSMeta.from_prompt_lines (format_card_storage_srs_meta m)
      = .ok { logseq_srs_meta :=
                LogseqSRSMeta.fromFSRS (FSRSMetaForStorage.of m.fsrs_meta),
              fsrs_meta := FSRSMetaForStorage.of m.fsrs_meta }
    ∧ (format_card_storage_srs_meta m).map MetaLine.key = canonicalMetaKeys
    ∧ FSRSMetaForStorage.of (FSRSMetaForStorage.of m.fsrs_meta)
        = FSRSMetaForStorage.of m.fsrs_meta
    ∧ (FSRSMetaForStorage.of m.fsrs_meta = m.fsrs_meta →
        SRSMeta.from_prompt_lines (format_card_storage_srs_meta m)
          = .ok { logseq_srs_meta := LogseqSRSMeta.fromFSRS m.fsrs_meta,
                  fsrs_meta := m.fsrs_meta }) := by
  refine ⟨rfl, rfl, fsrsMetaForStorage_idem m.fsrs_meta, ?_⟩
  intro hc
  rw [show SRSMeta.from_prompt_lines (format_card_storage_srs_meta m)
      = .ok { logseq_srs_meta :=
                LogseqSRSMeta.fromFSRS (FSRSMetaForStorage.of m.fsrs_meta),
              fsrs_meta := FSRSMetaForStorage.of m.fsrs_meta } from rfl, hc]

/-- The scheduling state of a parse result, if any. -/
def exceptFsrs (e : Except CodecError SRSMeta) : Option FSRSMeta :=
  match e with
  | .ok s => some s.fsrs_meta
  | .error _ => none

/-- A card whose stability (1.0001) carries more than three decimal places. -/
def c2CexMeta : SRSMeta :=
  { logseq_srs_meta := LogseqSRSMeta.default,
    fsrs_meta := { due := 0, stability := 10001/10000, difficulty := 0,
                   elapsed_days := 0, scheduled_days := 0, reps := 0,
                   lapses := 0, state := .New, last_review := 0 } }

theorem roundTo3_cex_eval : roundTo3 (10001/10000 : ℚ) = 1 := by
  have hfloor : ⌊(10001/10000 : ℚ) * 1000 + 1/2⌋ = 1000 :=
    Int.floor_eq_iff.2 (by constructor <;> norm_num)
  rw [roundTo3, roundHalfAwayFromZero,
    if_pos (by norm_num : (0 : ℚ) ≤ 10001/10000 * 1000), hfloor]
  norm_num

/-- C2 counterexample: re-reading a written-back card does not always yield
an equal scheduling state.  For a card whose stability is 1.0001, the
serializer rounds stability to three decimal places, so the re-read snapshot
has stability 1.0 and differs from the state first read. -/
theorem format_card_storage_srs_meta_roundtrip_cex :
    exceptFsrs (SRSMeta.from_prompt_lines
        (format_card_storage_srs_meta c2CexMeta))
      ≠ some c2CexMeta.fsrs_meta := by
  have hcore : exceptFsrs (SRSMeta.from_prompt_lines
        (format_card_storage_srs_meta c2CexMeta))
      = some (FSRSMetaForStorage.of c2CexMeta.fsrs_meta) := rfl
  rw [hcore]
  intro h
  have hs := congrArg FSRSMeta.stability (Option.some_injective _ h)
  have hv : (FSRSMetaForStorage.of c2CexMeta.fsrs_meta).stability
      = roundTo3 (10001/10000 : ℚ) := rfl
  rw [hv, roundTo3_cex_eval] at hs
  have : c2CexMeta.fsrs_meta.stability = (10001/10000 : ℚ) := rfl
  rw [this] at hs
  norm_num at hs

theorem roundTo3_zero : roundTo3 0 = 0 := by
  have hfloor : ⌊(0 : ℚ) * 1000 + 1/2⌋ = 0 :=
    Int.floor_eq_iff.2 (by constructor <;> norm_num)
  rw [roundTo3, roundHalfAwayFromZero,
    if_pos (by norm_num : (0 : ℚ) ≤ 0 * 1000), hfloor]
  norm_num

theorem fsrsMetaForStorage_default :
    FSRSMetaForStorage.of FSRSMeta.default = FSRSMeta.default := by
  rw [FSRSMetaForStorage.of, FSRSMeta.default]
  simp [roundTo3_zero, truncate_to_millis, Int.zero_fdiv]

/-- Witness for `format_card_storage_srs_meta_roundtrip` at a card whose
state is already canonical (the all-zero library default). -/
theorem format_card_storage_srs_meta_roundtrip_witness :
    FSRSMetaForStorage.of
        (SRSMeta.mk LogseqSRSMeta.default FSRSMeta.default).fsrs_meta
      = (SRSMeta.mk LogseqSRSMeta.default FSRSMeta.default).fsrs_meta
    ∧ SRSMeta.from_prompt_lines
        (format_card_storage_srs_meta
          (SRSMeta.mk LogseqSRSMeta.default FSRSMeta.default))
      = .ok { logseq_srs_meta := LogseqSRSMeta.fromFSRS FSRSMeta.default,
              fsrs_meta := FSRSMeta.default } :=
  ⟨fsrsMetaForStorage_default,
    (format_card_storage_srs_meta_roundtrip
      (SRSMeta.mk LogseqSRSMeta.default FSRSMeta.default)).2.2.2
      fsrsMetaForStorage_default⟩

/-! ## Prompt cleaning, fingerprints and serial numbers (src/storage.rs) -/

/-- Rust `str::trim_end` on a line. -/
def trimEnd (l : Str) : Str := (l.reverse.dropWhile Char.isWhitespace).reverse

/-- Rust `str::trim` on a line. -/
def trimStr (l : Str) : Str := trimEnd (l.dropWhile Char.isWhitespace)

/-- Model of `is_metadata_line` (src/storage.rs:176-178): the trimmed line
starts with `card-`. -/
def is_metadata_line (l : Str) : Bool :=
  "card-".toList.isPrefixOf (l.dropWhile Char.isWhitespace)

/-- Model of `strip_prompt_metadata` (src/storage.rs:232-236): drop the
metadata lines. -/
def strip_prompt_metadata (prompt_lines : List Str) : List Str :=
  prompt_lines.filter fun l => !is_metadata_line l

/-- Model of `strip_indent` (src/storage.rs:238-243): strip the exact indent
from each line on which it is a prefix, leaving other lines unchanged. -/
def strip_indent (lines : List Str) (indent : Str) : List Str :=
  lines.map fun line =>
    if indent.isPrefixOf line then line.drop indent.length else line

/-- The leading-space indentation measured from the prompt's first line
(src/storage.rs:300-302). -/
def promptIndentSize (prompt_lines : List Str) : ℕ :=
  ((trimEnd (prompt_lines.headD [])).takeWhile fun c => c = ' ').length

/-- The cleaned prompt built by `Page::extract_card` (src/storage.rs:304-307):
metadata lines filtered out, the first line's leading-space indentation
stripped from every remaining line, and the result joined with newlines. -/
def cleanedPrompt (prompt_lines : List Str) : Str :=
  joinNL (strip_indent (strip_prompt_metadata prompt_lines)
    (List.replicate (promptIndentSize prompt_lines) ' '))

/-- The digit group captured by the regex
`#card( <!-- CSN:(?<csn>[0-9]+) -->)?` directly after an occurrence of
`#card`: present when the text continues with the literal `" <!-- CSN:"`, one
or more digits, and `" -->"`.  A shortened digit run cannot rescue a failed
match (the next character would be a digit, not a space), so greedy matching
without backtracking is exact. -/
def csnAfterCard (rest : Str) : Option Str :=
  if " <!-- CSN:".toList.isPrefixOf rest then
    let r2 := rest.drop 10
    let ds := r2.takeWhile Char.isDigit
    if ds ≠ [] ∧ " -->".toList.isPrefixOf (r2.drop ds.length) then some ds
    else none
  else none

/-- The regex capture of `CARD_SERIAL_NUM_RE` (src/storage.rs:245-246) on a
prompt: `none` when `#card` does not occur at all, `some none` when the
leftmost `#card` has no serial-number annotation, and `some (some ds)` when
it is annotated with digit string `ds`. -/
def findCardCSN : Str → Option (Option Str)
  | [] => none
  | c :: cs =>
    if "#card".toList.isPrefixOf (c :: cs) then
      some (csnAfterCard ((c :: cs).drop 5))
    else findCardCSN cs

/-- The numeric value of a digit string. -/
def digitsVal (ds : Str) : ℕ := ds.foldl (fun acc c => 10 * acc + (c.toNat - 48)) 0

/-- A Rust panic, modeled as a distinguished outcome (in Rust the process
aborts instead of returning). -/
inductive PanicError
  | csnOverflow
deriving DecidableEq, Repr

/-- Model of `extract_serial_num` (src/storage.rs:248-251): a missing match
or a missing capture group is `none` via the `?` and `Option::map`, and
`parse::<u64>().unwrap()` panics when the digit string exceeds `u64::MAX`. -/
def extract_serial_num (prompt : Str) : Except PanicError (Option ℕ) :=
  match findCardCSN prompt with
  | none => .ok none
  | some none => .ok none
  | some (some ds) =>
    if digitsVal ds < 2 ^ 64 then .ok (some (digitsVal ds))
    else .error .csnOverflow

/-! ## The outline extractor (src/storage.rs) -/

/-- A 1-indexed source position (start line, end line) as provided by the
external markdown parser. -/
structure MdPosition where
  startLine : ℕ
  endLine : ℕ
deriving DecidableEq, Repr

/-- A list item's child at the granularity `find_card_ranges` inspects
(src/storage.rs:132-158). -/
inductive MdNode
  | paragraph (pos : Option MdPosition)
  | list (pos : Option MdPosition)
  | otherNode
deriving DecidableEq, Repr

/-- Model of `mdast::ListItem` at the granularity the extractor consumes. -/
structure MdListItem where
  children : List MdNode
  startLine? : Option ℕ
deriving DecidableEq, Repr

/-- Model of `range_from_position` (src/storage.rs:120-125): 1-indexed
parser positions become a 0-indexed inclusive line range. -/
def range_from_position (p : MdPosition) : ℕ × ℕ :=
  (p.startLine - 1, p.endLine - 1)

inductive ExtractError
  | malformedCard
  | missingPosition
  | promptRangeInvalid
  | responseRangeInvalid
  | codec (e : CodecError)
  | panic (e : PanicError)
  | panicNoPosition
deriving DecidableEq, Repr

structure CardLineRanges where
  prompt_range : ℕ × ℕ
  response_range : ℕ × ℕ
deriving DecidableEq, Repr

/-- Model of `find_card_ranges` (src/storage.rs:132-158): a card's children
must be exactly a paragraph followed by a list, both carrying positions. -/
def find_card_ranges (card : MdListItem) : Except ExtractError CardLineRanges :=
  match card.children with
  | [MdNode.paragraph p?, MdNode.list l?] =>
    match p?, l? with
    | some p, some l =>
        .ok { prompt_range := range_from_position p,
              response_range := range_from_position l }
    | _, _ => .error .missingPosition
  | _ => .error .malformedCard

/-- Rust `slice::get(a..=b)`: the subslice when the inclusive range is within
bounds (empty when `a = b + 1`), `None` otherwise. -/
def sliceGetInclusive (lines : List Str) (r : ℕ × ℕ) : Option (List Str) :=
  if r.1 ≤ r.2 + 1 ∧ r.2 + 1 ≤ lines.length then
    some ((lines.drop r.1).take (r.2 + 1 - r.1))
  else none

/-- Model of `destructure_card` (src/storage.rs:160-174): look up the prompt
and response line ranges in the file's line array; a range outside the array
is an error. -/
def destructure_card (card : MdListItem) (file_raw_lines : List Str) :
    Except ExtractError (List Str × List Str) :=
  match find_card_ranges card with
  | .error e => .error e
  | .ok ranges =>
    match sliceGetInclusive file_raw_lines ranges.prompt_range with
    | none => .error .promptRangeInvalid
    | some prompt_lines =>
      match sliceGetInclusive file_raw_lines ranges.response_range with
      | none => .error .responseRangeInvalid
      | some response_lines => .ok (prompt_lines, response_lines)

/-- Model of `CardRef` (src/types.rs): a card's address. -/
structure CardRef where
  source_path : String
  prompt_fingerprint : ℕ
  serial_num : Option ℕ
deriving DecidableEq, Repr

structure CardMetadata where
  card_ref : CardRef
  srs_meta : SRSMeta
deriving DecidableEq, Repr

structure CardBody where
  prompt : Str
  prompt_indent : ℕ
  response : Str
deriving DecidableEq, Repr

structure Card where
  metadata : CardMetadata
  body : CardBody
deriving DecidableEq, Repr

/-- The primitive value codecs `SRSMeta::from_prompt_lines` delegates to
(`f64`/`u8` `FromStr`, RFC3339 datetime parsing, `serde_json`): external
collaborators, passed as parameters of the embedding; `none` models a value
that fails to parse. -/
structure ValueCodecs where
  f64 : Str → Option ℚ
  u8 : Str → Option ℕ
  rfc3339 : Str → Option ℤ
  fsrsJson : Str → Option FSRSMeta

/-- Model of `str::split_once(":: ")`: split at the first occurrence of the
separator. -/
def splitOnceSep : Str → Option (Str × Str)
  | [] => none
  | c :: cs =>
    if ":: ".toList.isPrefixOf (c :: cs) then some ([], (c :: cs).drop 3)
    else
      match splitOnceSep cs with
      | some (pre, post) => some (c :: pre, post)
      | none => none

/-- The per-line dispatch of `SRSMeta::from_prompt_lines`
(src/storage.rs:186-213): trim the line, split at `":: "` (no split: the
line is skipped), match the key (unrecognized keys are skipped), and parse
the value with the key's codec. -/
def classifyLine (vc : ValueCodecs) (line : Str) : MetaLine :=
  match splitOnceSep (trimStr line) with
  | none => .other
  | some (k, v) =>
    if k = "card-last-interval".toList then
      ((vc.f64 v).map MetaLine.lastInterval).getD (.invalidValue "card-last-interval")
    else if k = "card-repeats".toList then
      ((vc.u8 v).map MetaLine.repeats).getD (.invalidValue "card-repeats")
    else if k = "card-ease-factor".toList then
      ((vc.f64 v).map MetaLine.easeFactor).getD (.invalidValue "card-ease-factor")
    else if k = "card-next-schedule".toList then
      ((vc.rfc3339 v).map MetaLine.nextSchedule).getD (.invalidValue "card-next-schedule")
    else if k = "card-last-reviewed".toList then
      ((vc.rfc3339 v).map MetaLine.lastReviewed).getD (.invalidValue "card-last-reviewed")
    else if k = "card-last-score".toList then
      ((vc.u8 v).map MetaLine.lastScore).getD (.invalidValue "card-last-score")
    else if k = "card-fsrs-metadata".toList then
      ((vc.fsrsJson v).map MetaLine.fsrsMetadata).getD (.invalidValue "card-fsrs-metadata")
    else .other

/-- `SRSMeta::from_prompt_lines` over raw prompt lines: classify each line,
then run the accumulation loop (src/storage.rs:181-229). -/
def SRSMeta.from_prompt_lines_raw (vc : ValueCodecs) (prompt_lines : List Str) :
    Except CodecError SRSMeta :=
  SRSMeta.from_prompt_lines (prompt_lines.map (classifyLine vc))

/-- Model of `Page::extract_card` (src/storage.rs:296-325), parameterized by
the fingerprint hash (`xxhash_rust::xxh3::xxh3_64`, an external collaborator)
and the value codecs. -/
def Page.extract_card (hash : Str → ℕ) (vc : ValueCodecs) (path : String)
    (file_raw_lines : List Str) (card_list_item : MdListItem) :
    Except ExtractError Card :=
  match destructure_card card_list_item file_raw_lines with
  | .error e => .error e
  | .ok (prompt_lines, response_lines) =>
    let prompt := cleanedPrompt prompt_lines
    let response := joinNL (strip_indent response_lines
      (List.replicate (promptIndentSize prompt_lines) ' '))
    match extract_serial_num prompt with
    | .error e => .error (.panic e)
    | .ok serial_num =>
      match SRSMeta.from_prompt_lines_raw vc prompt_lines with
      | .error e => .error (.codec e)
      | .ok srs =>
        .ok { metadata :=
                { card_ref := { source_path := path,
                                prompt_fingerprint := hash prompt, serial_num },
                  srs_meta := srs },
              body := { prompt,
                        prompt_indent := promptIndentSize prompt_lines,
                        response } }

/-- Model of `Page::extract_cards` (src/storage.rs:327-342): extract every
card list item, collecting into one `Result`, so the first failure aborts the
whole file's listing.  On failure the source attaches the item's start line
as context through an `expect` that panics when the item has no position;
that panic is the distinguished error `panicNoPosition`. -/
def Page.extract_cards (hash : Str → ℕ) (vc : ValueCodecs) (path : String)
    (file_raw_lines : List Str) :
    List MdListItem → Except ExtractError (List Card)
  | [] => .ok []
  | li :: rest =>
    match Page.extract_card hash vc path file_raw_lines li with
    | .error e =>
      match li.startLine? with
      | some _ => .error e
      | none => .error .panicNoPosition
    | .ok c =>
      match Page.extract_cards hash vc path file_raw_lines rest with
      | .error e => .error e
      | .ok cs => .ok (c :: cs)

/-- Trivial concrete value codecs used to instantiate witnesses. -/
def trivialCodecs : ValueCodecs :=
  { f64 := fun _ => none, u8 := fun _ => none, rfc3339 := fun _ => none,
    fsrsJson := fun _ => none }

/-- A trivial concrete fingerprint hash used to instantiate witnesses. -/
def zeroHash : Str → ℕ := fun _ => 0

/-- C3 (amended): a card's stored fingerprint is the hash of the cleaned
prompt only (metadata lines filtered, first-line indentation stripped); the
cleaned prompt — hence the fingerprint, for every hash — is unchanged by any
edit of the metadata lines that leaves the prompt's first line in place
(which every metadata edit on a real extracted card does: the first prompt
line is the list-bullet line, never a metadata line); and extraction is a
pure function, so repeated extraction of the same prompt text yields the
same fingerprint. -/
theorem fingerprint_from_cleaned_prompt (hash : Str → ℕ) (vc : ValueCodecs)
    (path : String) (file_raw_lines : List Str) (item : MdListItem)
    (pl rl : List Str)
    (hd : destructure_card item file_raw_lines = .ok (pl, rl)) :
    (∀ card, Page.extract_card hash vc path file_raw_lines item = .ok card →
      card.metadata.card_ref.prompt_fingerprint = hash (cleanedPrompt pl)
      ∧ card.body.prompt = cleanedPrompt pl)
    ∧ (∀ pl2 : List Str,
        strip_prompt_metadata pl2 = strip_prompt_metadata pl →
        pl2.head? = pl.head? →
        cleanedPrompt pl2 = cleanedPrompt pl)
    ∧ Page.extract_card hash vc path file_raw_lines item
        = Page.extract_card hash vc path file_raw_lines item := by
  refine ⟨?_, ?_, rfl⟩
  · intro card hc
    rw [Page.extract_card, hd] at hc
    rcases hs : extract_serial_num (cleanedPrompt pl) with e | s <;>
      simp only [hs] at hc
    · cases hc
    · rcases hp : SRSMeta.from_prompt_lines_raw vc pl with e | srs <;>
        simp only [hp] at hc
      · cases hc
      · cases hc
        exact ⟨rfl, rfl⟩
  · intro pl2 hstrip hhead
    have hD : ∀ l : List Str, l.headD [] = l.head?.getD [] := fun l => by
      cases l <;> rfl
    have hfirst : pl2.headD [] = pl.headD [] := by
      rw [hD, hD, hhead]
    rw [cleanedPrompt, cleanedPrompt, hstrip, promptIndentSize,
      promptIndentSize, hfirst]

/-- C3 counterexample: the claim as stated — adding a metadata line never
changes the fingerprint — fails when the added line becomes the prompt's
first line, because the indentation is measured from the first line.
Prepending the metadata line `"    card-x:: 1"` (indent 4) to the one-line
prompt `"  - Q #card"` (indent 2) leaves the filtered metadata-free lines
identical but changes the cleaned prompt: the original strips two spaces,
while the modified prompt strips nothing.  A fingerprint hash as simple as
string length then distinguishes the two cleaned prompts. -/
theorem fingerprint_from_cleaned_prompt_cex :
    strip_prompt_metadata ["    card-x:: 1".toList, "  - Q #card".toList]
      = strip_prompt_metadata ["  - Q #card".toList]
    ∧ (cleanedPrompt ["    card-x:: 1".toList, "  - Q #card".toList]).length
      ≠ (cleanedPrompt ["  - Q #card".toList]).length := by
  constructor
  · decide
  · decide

/-- The list item and page used by extraction witnesses: a one-line prompt
`"- Q #card"` on line 0 and a one-line response on line 1. -/
def sampleItem : MdListItem :=
  { children := [.paragraph (some { startLine := 1, endLine := 1 }),
                 .list (some { startLine := 2, endLine := 2 })],
    startLine? := some 1 }

def sampleLines : List Str := ["- Q #card".toList, "  - A".toList]

/-- The card `Page::extract_card` produces from `sampleLines`. -/
def sampleCard : Card :=
  { metadata :=
      { card_ref := { source_path := "page.md", prompt_fingerprint := 0,
                      serial_num := none },
        srs_meta := { logseq_srs_meta := LogseqSRSMeta.default,
                      fsrs_meta := FSRSMeta.fromLogseq LogseqSRSMeta.default } },
    body := { prompt := "- Q #card".toList, prompt_indent := 0,
              response := "  - A".toList } }

/-- Witness for `fingerprint_from_cleaned_prompt` on the sample page. -/
theorem fingerprint_from_cleaned_prompt_witness :
    destructure_card sampleItem sampleLines
      = .ok (["- Q #card".toList], ["  - A".toList])
    ∧ Page.extract_card zeroHash trivialCodecs "page.md" sampleLines sampleItem
      = .ok sampleCard
    ∧ (sampleCard.metadata.card_ref.prompt_fingerprint
        = zeroHash (cleanedPrompt ["- Q #card".toList])
      ∧ sampleCard.body.prompt = cleanedPrompt ["- Q #card".toList]) :=
  ⟨rfl, rfl,
    (fingerprint_from_cleaned_prompt zeroHash trivialCodecs "page.md"
      sampleLines sampleItem _ _ rfl).1 sampleCard rfl⟩

/-- C7: listing a file's cards is all-or-nothing.  If extracting any single
card list item fails, `Page::extract_cards` returns an error for the whole
file; if it returns a list, it contains the successfully extracted metadata
of every card, in order. -/
theorem extract_cards_all_or_nothing (hash : Str → ℕ) (vc : ValueCodecs)
    (path : String) (file_raw_lines : List Str) (items : List MdListItem) :
    (∀ li ∈ items,
      (∃ e, Page.extract_card hash vc path file_raw_lines li = .error e) →
      ∃ e2, Page.extract_cards hash vc path file_raw_lines items = .error e2)
    ∧ (∀ cs, Page.extract_cards hash vc path file_raw_lines items = .ok cs →
        cs.length = items.length
        ∧ ∀ i li, items.get? i = some li →
            ∃ c, cs.get? i = some c
              ∧ Page.extract_card hash vc path file_raw_lines li = .ok c) := by
  induction items with
  | nil =>
    refine ⟨fun li hli => absurd hli (List.not_mem_nil li), ?_⟩
    intro cs hcs
    cases hcs
    exact ⟨rfl, fun i li h => by simp at h⟩
  | cons li0 rest ih =>
    constructor
    · rintro li hli ⟨e, he⟩
      rw [Page.extract_cards]
      rcases h0 : Page.extract_card hash vc path file_raw_lines li0 with e0 | c0
      · rcases hpos : li0.startLine? with _ | n
        · exact ⟨.panicNoPosition, rfl⟩
        · exact ⟨e0, rfl⟩
      · rcases List.mem_cons.1 hli with hq | hq
        · rw [hq, h0] at he
          cases he
        · rcases ih.1 li hq ⟨e, he⟩ with ⟨e2, he2⟩
          rw [he2]
          exact ⟨e2, rfl⟩
    · intro cs hcs
      rw [Page.extract_cards] at hcs
      rcases h0 : Page.extract_card hash vc path file_raw_lines li0 with e0 | c0 <;>
        rw [h0] at hcs
      · rcases hpos : li0.startLine? with _ | n <;> rw [hpos] at hcs <;> cases hcs
      · rcases hrest : Page.extract_cards hash vc path file_raw_lines rest
          with e2 | cs0 <;> rw [hrest] at hcs
        · cases hcs
        · cases hcs
          rcases ih.2 cs0 hrest with ⟨hlen, hidx⟩
          refine ⟨by simp [hlen], ?_⟩
          intro i li hi
          cases i with
          | zero =>
            simp only [List.get?_cons_zero, Option.some_inj] at hi
            exact ⟨c0, rfl, by rw [← hi]; exact h0⟩
          | succ j =>
            simp only [List.get?_cons_succ] at hi ⊢
            exact hidx j li hi

/-- Witness for `extract_cards_all_or_nothing`: a file whose single list
item has a malformed shape (no children) makes the whole listing fail. -/
theorem extract_cards_all_or_nothing_witness :
    (MdListItem.mk [] (some 1)) ∈ [MdListItem.mk [] (some 1)]
    ∧ Page.extract_card zeroHash trivialCodecs "page.md" []
        (MdListItem.mk [] (some 1)) = .error .malformedCard
    ∧ ∃ e2, Page.extract_cards zeroHash trivialCodecs "page.md" []
        [MdListItem.mk [] (some 1)] = .error e2 :=
  ⟨List.mem_singleton.2 rfl, rfl,
    (extract_cards_all_or_nothing zeroHash trivialCodecs "page.md" []
      [MdListItem.mk [] (some 1)]).1 (MdListItem.mk [] (some 1))
      (List.mem_singleton.2 rfl) ⟨.malformedCard, rfl⟩⟩

/-- C10: `extract_serial_num` returns `None` for every prompt on which the
regex captures no serial-number annotation (absence is not an error), but on
the syntactically well-formed prompt `"#card <!-- CSN:99999999999999999999 -->"`,
whose 20-digit string exceeds the range of `u64`, the `unwrap` panics
instead of returning `None` or an error. -/
theorem extract_serial_num_none_or_panic :
    (∀ prompt : Str, (∀ ds, findCardCSN prompt ≠ some (some ds)) →
      extract_serial_num prompt = .ok none)
    ∧ extract_serial_num "#card <!-- CSN:99999999999999999999 -->".toList
        = .error .csnOverflow
    ∧ extract_serial_num "What is love? #card".toList = .ok none := by
  refine ⟨?_, rfl, rfl⟩
  intro prompt h
  rcases hf : findCardCSN prompt with _ | (_ | ds)
  · rw [extract_serial_num, hf]
  · rw [extract_serial_num, hf]
  · exact absurd hf (h ds)

theorem sphereNoCSN : ∀ ds, findCardCSN "What is a sphere?".toList ≠ some (some ds) := by
  intro ds h
  rw [show findCardCSN "What is a sphere?".toList = none from rfl] at h
  cases h

/-- Witness for `extract_serial_num_none_or_panic` on a prompt with no
`#card` marker at all. -/
theorem extract_serial_num_none_or_panic_witness :
    (∀ ds, findCardCSN "What is a sphere?".toList ≠ some (some ds))
    ∧ extract_serial_num "What is a sphere?".toList = .ok none :=
  ⟨sphereNoCSN,
    extract_serial_num_none_or_panic.1 "What is a sphere?".toList sphereNoCSN⟩

/-! ## Serial allocation and the storage manager (src/storage.rs) -/

inductive AllocError
  | parseFailed
deriving DecidableEq, Repr

/-- The two allocator implementations (src/storage.rs:442-449 and 451-489).
The graph-root allocator carries the counter file's state in place of the
root path: `none` is an absent file, `some none` a present file whose
contents do not parse as a `u64`, and `some (some n)` a file persisting the
integer `n` (the decimal codec of the plain-integer file is exact). -/
inductive SerialNumAllocator
  | noOp
  | graphRoot (counterFile : Option (Option ℕ))
deriving DecidableEq, Repr

/-- Model of `GraphRootSerialNumAllocator::allocate_inner`
(src/storage.rs:456-479): create the file persisting 0 on first use and
return 0; otherwise read the persisted integer `n`, persist `n + 1` by
truncating and rewriting the same open handle, and return `n + 1` (the `u64`
increment wraps at `2 ^ 64`); an unparseable file is an error. -/
def allocate_inner :
    Option (Option ℕ) → Except AllocError (ℕ × Option (Option ℕ))
  | none => .ok (0, some (some 0))
  | some none => .error .parseFailed
  | some (some n) => .ok ((n + 1) % 2 ^ 64, some (some ((n + 1) % 2 ^ 64)))

/-- `CardSerialNumAllocator::allocate` (src/storage.rs:386-390, 444-449 and
482-489): `none` means allocation was not attempted, distinct from a
`some (.error _)` failure. -/
def SerialNumAllocator.allocate :
    SerialNumAllocator → Option (Except AllocError (ℕ × SerialNumAllocator))
  | .noOp => none
  | .graphRoot st =>
    some (match allocate_inner st with
      | .error e => .error e
      | .ok (n, st2) => .ok (n, .graphRoot st2))

inductive FsError
  | notFound
  | invalidLayout
deriving DecidableEq, Repr

/-- Model of `choose_serial_num_allocator` (src/storage.rs:491-496),
parameterized by the outcome of `find_graph_root` for the path (a filesystem
classification, external to the embedding) and by the counter file's current
state. -/
def choose_serial_num_allocator (graphRoot? : Except FsError (Option String))
    (counterFile : Option (Option ℕ)) : Except FsError SerialNumAllocator :=
  match graphRoot? with
  | .error e => .error e
  | .ok none => .ok .noOp
  | .ok (some _) => .ok (.graphRoot counterFile)

/-- The span of text the regex match consumes after `#card`: the full
`\x20<!-- CSN:ds -->` annotation when the optional group matched, nothing
otherwise. -/
def csnMatchSpan (rest : Str) : ℕ :=
  match csnAfterCard rest with
  | some ds => 10 + ds.length + 4
  | none => 0

/-- Model of `Regex::replace` with `CARD_SERIAL_NUM_RE` and the replacement
`#card <!-- CSN:{n} -->` (src/storage.rs:271-273): rewrite the first match,
leaving a prompt without `#card` unchanged. -/
def replaceCSN (prompt : Str) (n : ℕ) : Str :=
  match prompt with
  | [] => []
  | c :: cs =>
    if "#card".toList.isPrefixOf (c :: cs) then
      "#card <!-- CSN:".toList ++ Nat.toDigits 10 n ++ " -->".toList
        ++ (c :: cs).drop (5 + csnMatchSpan ((c :: cs).drop 5))
    else c :: replaceCSN cs n

/-- Model of `maybe_allocate_serial_num` (src/storage.rs:253-275): skip when
the card already has a serial number; skip when allocation is not attempted;
fail when allocation fails; otherwise record the fresh serial number in the
card and embed it in the prompt text. -/
def maybe_allocate_serial_num (card : Card) (alloc : SerialNumAllocator) :
    Except AllocError (Card × SerialNumAllocator) :=
  if card.metadata.card_ref.serial_num.isSome then .ok (card, alloc)
  else
    match alloc.allocate with
    | none => .ok (card, alloc)
    | some (.error e) => .error e
    | some (.ok (n, alloc2)) =>
      .ok ({ card with
              metadata := { card.metadata with
                card_ref := { card.metadata.card_ref with
                  serial_num := some n } },
              body := { card.body with
                prompt := replaceCSN card.body.prompt n } },
            alloc2)

/-- Modelled from the spec: `MetadataMode` — the configuration value
selecting inline metadata or the graph-root side-store (§4.5 and glossary).
The enum lives in `src/settings.rs`, whose final iteration is not among the
provided sources; its two variants are exactly those matched in
`StorageManager::new` (src/storage.rs:516-524). -/
inductive MetadataMode
  | Inline
  | InGraphRoot
deriving DecidableEq, Repr

/-- Model of `MetadataSource` (src/storage.rs:504-507). -/
inductive MetadataSource
  | PageFiles
  | GraphRoot (root : String)
deriving DecidableEq, Repr

/-- Model of `StorageManager` (src/storage.rs:509-512). -/
structure StorageManager where
  serial_num_allocator : SerialNumAllocator
  metadata_source : MetadataSource
deriving DecidableEq, Repr

inductive NewError
  | fs (e : FsError)
  | noGraphRoot
deriving DecidableEq, Repr

/-- Model of `StorageManager::new` (src/storage.rs:514-526), parameterized
by the `find_graph_root` classification of the path (the function is called
once for the metadata source and once inside `choose_serial_num_allocator`;
within one single-process invocation both calls see the same
filesystem). -/
def StorageManager.new (graphRoot? : Except FsError (Option String))
    (counterFile : Option (Option ℕ)) (metadata_mode : MetadataMode) :
    Except NewError StorageManager :=
  match metadata_mode with
  | .Inline =>
    match choose_serial_num_allocator graphRoot? counterFile with
    | .error e => .error (.fs e)
    | .ok sa =>
      .ok { serial_num_allocator := sa, metadata_source := .PageFiles }
  | .InGraphRoot =>
    match graphRoot? with
    | .error e => .error (.fs e)
    | .ok none => .error .noGraphRoot
    | .ok (some root) =>
      match choose_serial_num_allocator graphRoot? counterFile with
      | .error e => .error (.fs e)
      | .ok sa =>
        .ok { serial_num_allocator := sa, metadata_source := .GraphRoot root }

/-- Model of `StorageManager::merge_page_and_graph_root_card_metas`
(src/storage.rs:593-613).  The `BTreeMap` of side-store records is modeled
as a function from serial numbers to optional scheduling states;
`BTreeMap::remove` both returns and deletes the record. -/
def StorageManager.merge_page_and_graph_root_card_metas :
    List CardMetadata → (ℕ → Option FSRSMeta) → List CardMetadata
  | [], _ => []
  | pcm :: rest, m =>
    match pcm.card_ref.serial_num with
    | none => pcm :: StorageManager.merge_page_and_graph_root_card_metas rest m
    | some csn =>
      match m csn with
      | none => pcm :: StorageManager.merge_page_and_graph_root_card_metas rest m
      | some fsrs_meta =>
        { card_ref := pcm.card_ref,
          srs_meta := { logseq_srs_meta := LogseqSRSMeta.fromFSRS fsrs_meta,
                        fsrs_meta } }
          :: StorageManager.merge_page_and_graph_root_card_metas rest
              (fun k => if k = csn then none else m k)

/-- Model of `StorageManager::load_card_metas` (src/storage.rs:615-626),
over the page's extracted metadata and the side-store mapping loaded by
`load_fsrs_metas`. -/
def StorageManager.load_card_metas (sm : StorageManager)
    (page_card_metas : List CardMetadata) (store : ℕ → Option FSRSMeta) :
    List CardMetadata :=
  match sm.metadata_source with
  | .PageFiles => page_card_metas
  | .GraphRoot _ =>
    StorageManager.merge_page_and_graph_root_card_metas page_card_metas store

inductive RewriteError
  | alloc (e : AllocError)
  | panicUnwrap
deriving DecidableEq, Repr

/-- The write a `rewrite_card_meta` performs (src/storage.rs:634-650): an
inline page rewrite of the whole card, or a page rewrite of prompt and
response plus a side-store record update keyed by the card's serial
number. -/
inductive RewriteOutcome
  | inlineWrite (card : Card)
  | sideStoreWrite (card : Card) (csn : ℕ)
deriving DecidableEq, Repr

def RewriteOutcome.card : RewriteOutcome → Card
  | .inlineWrite c => c
  | .sideStoreWrite c _ => c

/-- Model of `StorageManager::rewrite_card_meta` (src/storage.rs:628-651)
from the point where the card has been re-located in its page (`found`):
install the new metadata, run `maybe_allocate_serial_num`, then write.  In
graph-root mode the side-store update calls `unwrap` on the card's serial
number; `unwrap` on `None` is the distinguished outcome `panicUnwrap`. -/
def StorageManager.rewrite_card_meta (sm : StorageManager) (found : Card)
    (m : SRSMeta) :
    Except RewriteError (RewriteOutcome × SerialNumAllocator) :=
  let card0 : Card :=
    { found with metadata := { found.metadata with srs_meta := m } }
  match maybe_allocate_serial_num card0 sm.serial_num_allocator with
  | .error e => .error (.alloc e)
  | .ok (card1, alloc2) =>
    match sm.metadata_source with
    | .PageFiles => .ok (.inlineWrite card1, alloc2)
    | .GraphRoot _ =>
      match card1.metadata.card_ref.serial_num with
      | some csn => .ok (.sideStoreWrite card1 csn, alloc2)
      | none => .error .panicUnwrap

/-- C5: once a card carries a serial number, `maybe_allocate_serial_num` is
skipped entirely — the card, its prompt, and the allocator are all left
untouched, so no serial number is consumed — and a subsequent
`rewrite_card_meta` writes the card back with the same serial number, the
same prompt, and only the new metadata installed: the embedded serial
number survives every later metadata rewrite. -/
theorem serial_stable_under_rewrite (sm : StorageManager) (found : Card)
    (m : SRSMeta) (k : ℕ)
    (hk : found.metadata.card_ref.serial_num = some k) :
    maybe_allocate_serial_num found sm.serial_num_allocator
      = .ok (found, sm.serial_num_allocator)
    ∧ ∃ out, StorageManager.rewrite_card_meta sm found m
        = .ok (out, sm.serial_num_allocator)
      ∧ out.card.metadata.card_ref.serial_num = some k
      ∧ out.card.body.prompt = found.body.prompt
      ∧ out.card.metadata.srs_meta = m := by
  have hskip : ∀ (c : Card) (a : SerialNumAllocator),
      c.metadata.card_ref.serial_num = some k →
      maybe_allocate_serial_num c a = .ok (c, a) := by
    intro c a hc
    rw [maybe_allocate_serial_num, if_pos (by rw [hc]; rfl)]
  have hma := hskip
    (Card.mk (CardMetadata.mk found.metadata.card_ref m) found.body)
    sm.serial_num_allocator hk
  refine ⟨hskip found sm.serial_num_allocator hk, ?_⟩
  rcases hms : sm.metadata_source with _ | root
  · refine ⟨RewriteOutcome.inlineWrite
        (Card.mk (CardMetadata.mk found.metadata.card_ref m) found.body),
      ?_, hk, rfl, rfl⟩
    simp only [StorageManager.rewrite_card_meta, hma, hms]
  · refine ⟨RewriteOutcome.sideStoreWrite
        (Card.mk (CardMetadata.mk found.metadata.card_ref m) found.body) k,
      ?_, hk, rfl, rfl⟩
    simp only [StorageManager.rewrite_card_meta, hma, hms, hk]

def c5Manager : StorageManager :=
  { serial_num_allocator := .noOp, metadata_source := .PageFiles }

def c5Card : Card :=
  { metadata := { card_ref := { source_path := "page.md",
                                prompt_fingerprint := 0,
                                serial_num := some 7 },
                  srs_meta := SRSMeta.mk LogseqSRSMeta.default
                    FSRSMeta.default },
    body := { prompt := "- Q #card <!-- CSN:7 -->".toList,
              prompt_indent := 0, response := "  - A".toList } }

/-- Witness for `serial_stable_under_rewrite` on a card already carrying
serial number 7. -/
theorem serial_stable_under_rewrite_witness :
    c5Card.metadata.card_ref.serial_num = some 7
    ∧ (maybe_allocate_serial_num c5Card c5Manager.serial_num_allocator
        = .ok (c5Card, c5Manager.serial_num_allocator)
      ∧ ∃ out, StorageManager.rewrite_card_meta c5Manager c5Card
            (SRSMeta.mk LogseqSRSMeta.default FSRSMeta.default)
          = .ok (out, c5Manager.serial_num_allocator)
        ∧ out.card.metadata.card_ref.serial_num = some 7
        ∧ out.card.body.prompt = c5Card.body.prompt
        ∧ out.card.metadata.srs_meta
            = SRSMeta.mk LogseqSRSMeta.default FSRSMeta.default) :=
  ⟨rfl, serial_stable_under_rewrite c5Manager c5Card
    (SRSMeta.mk LogseqSRSMeta.default FSRSMeta.default) 7 rfl⟩

/-- The counter file state and value after `k + 1` successful allocations
starting from no file. -/
def allocIter : ℕ → Except AllocError (ℕ × Option (Option ℕ))
  | 0 => allocate_inner none
  | k + 1 =>
    match allocIter k with
    | .error e => .error e
    | .ok (_, st) => allocate_inner st

/-- C6: the root-backed allocator returns 0 and creates the counter file
persisting 0 on first use; on every later allocation it reads the persisted
integer `n` and persists and returns `n + 1` (below the `u64` bound), so
successive allocations within one process return the strictly increasing
values 0, 1, 2, …; and when there is no collection root the chosen
allocator is the no-op one, whose `allocate` returns `none` — allocation not
attempted, distinct from an allocation error. -/
theorem graph_root_allocator_sequence :
    allocate_inner none = .ok (0, some (some 0))
    ∧ (∀ n : ℕ, n + 1 < 2 ^ 64 →
        allocate_inner (some (some n)) = .ok (n + 1, some (some (n + 1))))
    ∧ (∀ k : ℕ, k < 2 ^ 64 → allocIter k = .ok (k, some (some k)))
    ∧ choose_serial_num_allocator (.ok none) none = .ok .noOp
    ∧ SerialNumAllocator.noOp.allocate = none
    ∧ ∀ root counterFile,
        choose_serial_num_allocator (.ok (some root)) counterFile
          = .ok (.graphRoot counterFile) := by
  refine ⟨rfl, ?_, ?_, rfl, rfl, fun root cf => rfl⟩
  · intro n hn
    rw [allocate_inner, Nat.mod_eq_of_lt hn]
  · intro k
    induction k with
    | zero => intro _; rfl
    | succ j ih =>
      intro hk
      have hj : j < 2 ^ 64 := Nat.lt_of_succ_lt hk
      simp only [allocIter, ih hj, allocate_inner, Nat.mod_eq_of_lt hk]

/-- Witness for `graph_root_allocator_sequence`: the fifth allocation after
persisting 4, and the value of the third allocation from a fresh root. -/
theorem graph_root_allocator_sequence_witness :
    (4 : ℕ) + 1 < 2 ^ 64 ∧ (2 : ℕ) < 2 ^ 64
    ∧ allocate_inner (some (some 4)) = .ok (5, some (some 5))
    ∧ allocIter 2 = .ok (2, some (some 2)) :=
  ⟨by norm_num, by norm_num,
    graph_root_allocator_sequence.2.1 4 (by norm_num),
    graph_root_allocator_sequence.2.2.1 2 (by norm_num)⟩

theorem maybe_allocate_graphRoot_isSome (c : Card) (st : Option (Option ℕ))
    (c2 : Card) (a2 : SerialNumAllocator)
    (h : maybe_allocate_serial_num c (.graphRoot st) = .ok (c2, a2)) :
    c2.metadata.card_ref.serial_num.isSome = true := by
  rw [maybe_allocate_serial_num] at h
  by_cases hs : c.metadata.card_ref.serial_num.isSome
  · rw [if_pos hs] at h
    cases h
    exact hs
  · rw [if_neg hs] at h
    simp only [SerialNumAllocator.allocate] at h
    rcases ha : allocate_inner st with e | ⟨n, st2⟩ <;> rw [ha] at h
    · cases h
    · cases h
      rfl

/-- C9: when `StorageManager::new` succeeds in side-store mode, a collection
root existed and the allocator — chosen from the same `find_graph_root`
classification of the same path — is the root-backed allocator, never the
no-op one; consequently every side-store `rewrite_card_meta` reaches its
side-store update with the card's serial number present (pre-existing or
freshly allocated), and the `unwrap` of `serial_num` cannot panic. -/
theorem side_store_unwrap_safe (graphRoot? : Except FsError (Option String))
    (counterFile : Option (Option ℕ)) (sm : StorageManager)
    (hnew : StorageManager.new graphRoot? counterFile .InGraphRoot = .ok sm) :
    (∃ root, graphRoot? = .ok (some root)
      ∧ sm.metadata_source = .GraphRoot root
      ∧ sm.serial_num_allocator = .graphRoot counterFile)
    ∧ ∀ found m, StorageManager.rewrite_card_meta sm found m
        ≠ .error .panicUnwrap := by
  rcases hg : graphRoot? with e | (_ | root) <;>
    simp only [StorageManager.new, hg, choose_serial_num_allocator] at hnew
  · cases hnew
  · cases hnew
  · injection hnew with h2
    subst h2
    refine ⟨⟨root, rfl, rfl, rfl⟩, ?_⟩
    intro found m h
    simp only [StorageManager.rewrite_card_meta] at h
    rcases ha : maybe_allocate_serial_num
        (Card.mk (CardMetadata.mk found.metadata.card_ref m) found.body)
        (SerialNumAllocator.graphRoot counterFile) with e | ⟨card1, alloc2⟩ <;>
      simp only [ha] at h
    · simp at h
    · have hsome := maybe_allocate_graphRoot_isSome _ _ _ _ ha
      rcases hcs : card1.metadata.card_ref.serial_num with _ | csn
      · rw [hcs] at hsome
        cases hsome
      · rw [hcs] at h
        cases h

def c9Manager : StorageManager :=
  { serial_num_allocator := .graphRoot none,
    metadata_source := .GraphRoot "root" }

/-- Witness for `side_store_unwrap_safe` on a freshly constructed side-store
manager and a sample card without a serial number. -/
theorem side_store_unwrap_safe_witness :
    StorageManager.new (.ok (some "root")) none .InGraphRoot = .ok c9Manager
    ∧ StorageManager.rewrite_card_meta c9Manager sampleCard
        (SRSMeta.mk LogseqSRSMeta.default FSRSMeta.default)
      ≠ .error .panicUnwrap :=
  ⟨rfl,
    (side_store_unwrap_safe (.ok (some "root")) none c9Manager rfl).2
      sampleCard (SRSMeta.mk LogseqSRSMeta.default FSRSMeta.default)⟩

theorem merge_length (metas : List CardMetadata) :
    ∀ store : ℕ → Option FSRSMeta,
      (StorageManager.merge_page_and_graph_root_card_metas metas store).length
        = metas.length := by
  induction metas with
  | nil => intro store; rfl
  | cons p0 rest ih =>
    intro store
    rcases hs : p0.card_ref.serial_num with _ | s
    · simp only [StorageManager.merge_page_and_graph_root_card_metas, hs,
        List.length_cons, ih]
    · rcases hm : store s with _ | f <;>
        simp only [StorageManager.merge_page_and_graph_root_card_metas, hs,
          hm, List.length_cons, ih]

/-- The side-store mapping after the merge loop has processed one card:
unchanged unless the card's serial number had a record, which is removed. -/
def storeAfterHead (p0 : CardMetadata) (store : ℕ → Option FSRSMeta) :
    ℕ → Option FSRSMeta :=
  match p0.card_ref.serial_num with
  | none => store
  | some csn =>
    match store csn with
    | none => store
    | some _ => fun k => if k = csn then none else store k

theorem merge_cons (p0 : CardMetadata) (rest : List CardMetadata)
    (store : ℕ → Option FSRSMeta) :
    ∃ head, StorageManager.merge_page_and_graph_root_card_metas (p0 :: rest)
        store
      = head :: StorageManager.merge_page_and_graph_root_card_metas rest
          (storeAfterHead p0 store) := by
  rcases hs : p0.card_ref.serial_num with _ | s
  · exact ⟨p0, by
      simp only [StorageManager.merge_page_and_graph_root_card_metas,
        storeAfterHead, hs]⟩
  · rcases hm : store s with _ | f
    · exact ⟨p0, by
        simp only [StorageManager.merge_page_and_graph_root_card_metas,
          storeAfterHead, hs, hm]⟩
    · refine ⟨CardMetadata.mk p0.card_ref
          (SRSMeta.mk (LogseqSRSMeta.fromFSRS f) f), ?_⟩
      simp only [StorageManager.merge_page_and_graph_root_card_metas,
        storeAfterHead, hs, hm]

theorem storeAfterHead_pres (p0 : CardMetadata) (store : ℕ → Option FSRSMeta)
    (s2 : ℕ) (hne : p0.card_ref.serial_num ≠ some s2) :
    storeAfterHead p0 store s2 = store s2 := by
  rcases hs : p0.card_ref.serial_num with _ | s0
  · simp only [storeAfterHead, hs]
  · rcases hm : store s0 with _ | f0
    · simp only [storeAfterHead, hs, hm]
    · have hss : s2 ≠ s0 :=
        fun hq => hne (hs.trans (congrArg Option.some hq.symm))
      simp only [storeAfterHead, hs, hm, if_neg hss]

theorem storeAfterHead_none (p0 : CardMetadata) (store : ℕ → Option FSRSMeta)
    (s2 : ℕ) (h2 : store s2 = none) : storeAfterHead p0 store s2 = none := by
  rcases hs : p0.card_ref.serial_num with _ | s0
  · simp only [storeAfterHead, hs, h2]
  · rcases hm : store s0 with _ | f0
    · simp only [storeAfterHead, hs, hm, h2]
    · by_cases hq : s2 = s0
      · simp only [storeAfterHead, hs, hm, if_pos hq]
      · simp only [storeAfterHead, hs, hm, if_neg hq, h2]

theorem merge_get (metas : List CardMetadata) :
    ∀ (store : ℕ → Option FSRSMeta) (i : ℕ) (pcm : CardMetadata),
      metas.get? i = some pcm →
      ((StorageManager.merge_page_and_graph_root_card_metas metas
          store).get? i).map CardMetadata.card_ref = some pcm.card_ref
      ∧ (pcm.card_ref.serial_num = none →
          (StorageManager.merge_page_and_graph_root_card_metas metas
            store).get? i = some pcm)
      ∧ (∀ s, pcm.card_ref.serial_num = some s → store s = none →
          (StorageManager.merge_page_and_graph_root_card_metas metas
            store).get? i = some pcm)
      ∧ (∀ s f, pcm.card_ref.serial_num = some s → store s = some f →
          (∀ j pj, j < i → metas.get? j = some pj →
            pj.card_ref.serial_num ≠ some s) →
          (StorageManager.merge_page_and_graph_root_card_metas metas
            store).get? i
            = some { card_ref := pcm.card_ref,
                     srs_meta :=
                       { logseq_srs_meta := LogseqSRSMeta.fromFSRS f,
                         fsrs_meta := f } }) := by
  induction metas with
  | nil => intro store i pcm h; simp at h
  | cons p0 rest ih =>
    intro store i pcm h
    cases i with
    | zero =>
      rw [List.get?_cons_zero, Option.some_inj] at h
      subst h
      refine ⟨?_, ?_, ?_, ?_⟩
      · rcases hs : p0.card_ref.serial_num with _ | s
        · simp [StorageManager.merge_page_and_graph_root_card_metas, hs]
        · rcases hm : store s with _ | f <;>
            simp [StorageManager.merge_page_and_graph_root_card_metas, hs, hm]
      · intro hn
        simp [StorageManager.merge_page_and_graph_root_card_metas, hn]
      · intro s hs hm
        simp [StorageManager.merge_page_and_graph_root_card_metas, hs, hm]
      · intro s f hs hm _
        simp [StorageManager.merge_page_and_graph_root_card_metas, hs, hm]
    | succ j =>
      rw [List.get?_cons_succ] at h
      obtain ⟨head, htail⟩ := merge_cons p0 rest store
      rw [htail, List.get?_cons_succ]
      obtain ⟨hmap, hnone, hnorec, hrec⟩ := ih (storeAfterHead p0 store) j pcm h
      refine ⟨hmap, hnone, ?_, ?_⟩
      · intro s hs hm
        exact hnorec s hs (storeAfterHead_none p0 store s hm)
      · intro s f hs hm hearly
        have hp0 : p0.card_ref.serial_num ≠ some s :=
          hearly 0 p0 (Nat.succ_pos j) rfl
        refine hrec s f hs ?_ ?_
        · rw [storeAfterHead_pres p0 store s hp0]
          exact hm
        · intro j2 pj hj2 hpj
          exact hearly (j2 + 1) pj (Nat.succ_lt_succ hj2) hpj

/-- C4 (amended): in side-store mode, `load_card_metas` merges the
side-store into the page-extracted metadata; the merge preserves count,
order and card references; every card without a serial number, or whose
serial number has no side-store record, is returned unchanged; and a card
carrying a serial number with a side-store record is returned with the
record's scheduling state (legacy fields derived from it) provided no
earlier card in the page carries the same serial number — each record is
consumed by its first match. -/
theorem merge_precedence (root : String) (alloc : SerialNumAllocator)
    (metas : List CardMetadata) (store : ℕ → Option FSRSMeta) :
    StorageManager.load_card_metas
        { serial_num_allocator := alloc, metadata_source := .GraphRoot root }
        metas store
      = StorageManager.merge_page_and_graph_root_card_metas metas store
    ∧ (StorageManager.merge_page_and_graph_root_card_metas metas
        store).length = metas.length
    ∧ ∀ i pcm, metas.get? i = some pcm →
        ((StorageManager.merge_page_and_graph_root_card_metas metas
            store).get? i).map CardMetadata.card_ref = some pcm.card_ref
        ∧ (pcm.card_ref.serial_num = none →
            (StorageManager.merge_page_and_graph_root_card_metas metas
              store).get? i = some pcm)
        ∧ (∀ s, pcm.card_ref.serial_num = some s → store s = none →
            (StorageManager.merge_page_and_graph_root_card_metas metas
              store).get? i = some pcm)
        ∧ (∀ s f, pcm.card_ref.serial_num = some s → store s = some f →
            (∀ j pj, j < i → metas.get? j = some pj →
              pj.card_ref.serial_num ≠ some s) →
            (StorageManager.merge_page_and_graph_root_card_metas metas
              store).get? i
              = some { card_ref := pcm.card_ref,
                       srs_meta :=
                         { logseq_srs_meta := LogseqSRSMeta.fromFSRS f,
                           fsrs_meta := f } }) :=
  ⟨rfl, merge_length metas store,
    fun i pcm h => merge_get metas store i pcm h⟩

def c4StoreState : FSRSMeta :=
  { due := 0, stability := 9, difficulty := 0, elapsed_days := 0,
    scheduled_days := 0, reps := 0, lapses := 0, state := .Review,
    last_review := 0 }

def c4PageMeta : CardMetadata :=
  { card_ref := { source_path := "page.md", prompt_fingerprint := 0,
                  serial_num := some 0 },
    srs_meta := SRSMeta.mk LogseqSRSMeta.default FSRSMeta.default }

def c4Store : ℕ → Option FSRSMeta :=
  fun k => if k = 0 then some c4StoreState else none

/-- C4 counterexample: the claim as stated fails when two page cards carry
the same serial number.  With two cards both carrying serial number 0 and a
side-store record for 0, `BTreeMap::remove` consumes the record at the
first card, so the second card — although it carries a serial number for
which the side-store mapping has a record — is returned with its
page-derived scheduling state, not the record's. -/
theorem merge_precedence_cex :
    (StorageManager.merge_page_and_graph_root_card_metas
        [c4PageMeta, c4PageMeta] c4Store).get? 1 = some c4PageMeta
    ∧ c4PageMeta.card_ref.serial_num = some 0
    ∧ c4Store 0 = some c4StoreState
    ∧ c4PageMeta.srs_meta.fsrs_meta ≠ c4StoreState := by
  refine ⟨rfl, rfl, rfl, ?_⟩
  intro h
  have hst : (0 : ℚ) = 9 := congrArg FSRSMeta.stability h
  norm_num at hst

def c4PageMeta2 : CardMetadata :=
  { card_ref := { source_path := "page.md", prompt_fingerprint := 0,
                  serial_num := some 1 },
    srs_meta := SRSMeta.mk LogseqSRSMeta.default FSRSMeta.default }

def c4Store2 : ℕ → Option FSRSMeta :=
  fun k => if k = 1 then some c4StoreState else none

/-- Witness for `merge_precedence`: a single card with serial number 1 and a
side-store record for 1 is returned with the record's scheduling state. -/
theorem merge_precedence_witness :
    [c4PageMeta2].get? 0 = some c4PageMeta2
    ∧ c4PageMeta2.card_ref.serial_num = some 1
    ∧ c4Store2 1 = some c4StoreState
    ∧ (StorageManager.merge_page_and_graph_root_card_metas [c4PageMeta2]
        c4Store2).get? 0
      = some { card_ref := c4PageMeta2.card_ref,
               srs_meta :=
                 { logseq_srs_meta := LogseqSRSMeta.fromFSRS c4StoreState,
                   fsrs_meta := c4StoreState } } :=
  ⟨rfl, rfl, rfl,
    (((merge_precedence "root" .noOp [c4PageMeta2] c4Store2).2.2 0 c4PageMeta2
      rfl).2.2.2) 1 c4StoreState rfl rfl
      (fun j _ hj _ => absurd hj (Nat.not_lt_zero j))⟩
